import Mathlib

/-!
# Verification of `distreqx/bijectors/diag_linear.py`

Shallow embedding of the `DiagLinear` bijector.  The numeric substrate is
modelled by an arbitrary linear ordered field `α` (exact arithmetic in
place of floating point) together with an uninterpreted logarithm
`rlog : α → α`; every Jacobian identity below is structural and holds for
any interpretation of `rlog`.  Arrays are lists: a 1-D event vector is a
`List α`, a batch of event vectors is a `List (List α)`.

`DiagLinear` delegates to
`Block(ScalarAffine(shift=zeros_like(diag), scale=diag), ndims=diag.ndim)`;
the files `scalar_affine.py`, `block.py` and `_bijector.py` are not part of
the sources, so those two bijectors are modelled from the specification,
instantiated at the shapes `DiagLinear` uses (a scalar bijector with
`event_ndims = 0`, wrapped with `ndims = 1`, applied to 1-D events of
length `D`, optionally under one leading batch axis handled by
broadcasting, i.e. by mapping over the rows).
-/

/-- An array of the numeric substrate as seen by `DiagLinear.__init__`:
`ref` models the identity of the underlying storage (Python object identity;
distinct allocations carry distinct refs), `shape` is the array's shape and
`data` its (flattened) entries. -/
structure JArray (α : Type) where
  ref : ℕ
  shape : List ℕ
  data : List α

/-- `ndim` of an array: the number of axes. -/
def JArray.ndim {α : Type} (a : JArray α) : ℕ :=
  a.shape.length

/-- Modelled from the spec: `scalar_affine.py` is not under the sources.
Per §4.2 the scalar affine transform has parameters `shift` and `scale`
and acts elementwise with `event_ndims = 0`.  Here both parameters are
length-`D` vectors, as built by `DiagLinear`. -/
structure ScalarAffine (α : Type) where
  shift : List α
  scale : List α

/-- Modelled from the spec: `forward(x) = x * scale + shift`, elementwise. -/
def ScalarAffine.forward {α : Type} [LinearOrderedField α]
    (sa : ScalarAffine α) (x : List α) : List α :=
  List.zipWith (fun t sh => t + sh) (List.zipWith (fun xi si => xi * si) x sa.scale) sa.shift

/-- Modelled from the spec: `inverse(y) = (y - shift) / scale`, elementwise,
with no zero-check on `scale`. -/
def ScalarAffine.inverse {α : Type} [LinearOrderedField α]
    (sa : ScalarAffine α) (y : List α) : List α :=
  List.zipWith (fun t si => t / si) (List.zipWith (fun yi sh => yi - sh) y sa.shift) sa.scale

/-- Modelled from the spec: `forward_log_det_jacobian(x) = log(|scale|)`,
broadcast to the shape of `x` and independent of the value of `x`. -/
def ScalarAffine.forward_log_det_jacobian {α : Type} [LinearOrderedField α]
    (rlog : α → α) (sa : ScalarAffine α) (x : List α) : List α :=
  List.zipWith (fun _ si => rlog |si|) x sa.scale

/-- Modelled from the spec: `inverse_log_det_jacobian(y) = -log(|scale|)`. -/
def ScalarAffine.inverse_log_det_jacobian {α : Type} [LinearOrderedField α]
    (rlog : α → α) (sa : ScalarAffine α) (y : List α) : List α :=
  List.zipWith (fun _ si => -rlog |si|) y sa.scale

/-- Modelled from the spec: the fused variant returns both values,
consistent with the two individual calls. -/
def ScalarAffine.forward_and_log_det {α : Type} [LinearOrderedField α]
    (rlog : α → α) (sa : ScalarAffine α) (x : List α) : List α × List α :=
  (sa.forward x, sa.forward_log_det_jacobian rlog x)

/-- Modelled from the spec: the fused inverse counterpart. -/
def ScalarAffine.inverse_and_log_det {α : Type} [LinearOrderedField α]
    (rlog : α → α) (sa : ScalarAffine α) (y : List α) : List α × List α :=
  (sa.inverse y, sa.inverse_log_det_jacobian rlog y)

/-- Modelled from the spec: `block.py` is not under the sources.  Per §4.3
the event-batching wrapper owns an inner bijector and an integer `ndims`,
and sums the inner elementwise log-Jacobian over the trailing `ndims` axes.
Instantiated here at `DiagLinear`'s use: inner `ScalarAffine`, `ndims = 1`,
acting on 1-D events. -/
structure Block (α : Type) where
  inner : ScalarAffine α
  ndims : ℕ

/-- Modelled from the spec: `forward` delegates unchanged to the inner
bijector. -/
def Block.forward {α : Type} [LinearOrderedField α]
    (b : Block α) (x : List α) : List α :=
  b.inner.forward x

/-- Modelled from the spec: `inverse` delegates unchanged to the inner
bijector. -/
def Block.inverse {α : Type} [LinearOrderedField α]
    (b : Block α) (y : List α) : List α :=
  b.inner.inverse y

/-- Modelled from the spec: the inner elementwise log-det-Jacobian summed
over the trailing `ndims = 1` event axis, one scalar per event. -/
def Block.forward_log_det_jacobian {α : Type} [LinearOrderedField α]
    (rlog : α → α) (b : Block α) (x : List α) : α :=
  (b.inner.forward_log_det_jacobian rlog x).sum

/-- Modelled from the spec: symmetric reduction of the inner inverse
log-det-Jacobian. -/
def Block.inverse_log_det_jacobian {α : Type} [LinearOrderedField α]
    (rlog : α → α) (b : Block α) (y : List α) : α :=
  (b.inner.inverse_log_det_jacobian rlog y).sum

/-- Modelled from the spec: the fused variant calls the inner fused
operation, then applies the same reduction to its Jacobian component. -/
def Block.forward_and_log_det {α : Type} [LinearOrderedField α]
    (rlog : α → α) (b : Block α) (x : List α) : List α × α :=
  let p := b.inner.forward_and_log_det rlog x
  (p.1, p.2.sum)

/-- Modelled from the spec: the fused inverse counterpart. -/
def Block.inverse_and_log_det {α : Type} [LinearOrderedField α]
    (rlog : α → α) (b : Block α) (y : List α) : List α × α :=
  let p := b.inner.inverse_and_log_det rlog y
  (p.1, p.2.sum)

/-- The `DiagLinear` object with the fields assigned by `__init__`
(`diag_linear.py`, lines 29-50). -/
structure DiagLinear (α : Type) where
  _diag : JArray α
  _bijector : Block α
  _is_constant_jacobian : Bool
  _is_constant_log_det : Bool
  _event_dims : ℕ

/-- The record built by the body of `__init__` after the dimension check
passes (`diag_linear.py`, lines 44-50): the inner bijector is
`Block(ScalarAffine(shift=zeros_like(diag), scale=diag), ndims=diag.ndim)`,
`_event_dims = diag.shape[-1]`, and both constant-Jacobian flags are set. -/
def dlBody {α : Type} [LinearOrderedField α] (diag : JArray α) : DiagLinear α :=
  { _diag := diag
    _bijector :=
      { inner := { shift := diag.data.map (fun _ => 0), scale := diag.data }
        ndims := diag.ndim }
    _is_constant_jacobian := true
    _is_constant_log_det := true
    _event_dims := diag.shape.getLastD 0 }

/-- `DiagLinear.__init__` (`diag_linear.py`, lines 35-50): raises
`ValueError` when `diag.ndim != 1`, otherwise constructs the object. -/
def DiagLinear.init {α : Type} [LinearOrderedField α]
    (diag : JArray α) : Except String (DiagLinear α) :=
  if diag.ndim ≠ 1 then Except.error "`diag` must have one dimension."
  else Except.ok (dlBody diag)

/-- `forward` (lines 52-54): delegates to the internal wrapped bijector. -/
def DiagLinear.forward {α : Type} [LinearOrderedField α]
    (b : DiagLinear α) (x : List α) : List α :=
  b._bijector.forward x

/-- `inverse` (lines 56-58): delegates to the internal wrapped bijector. -/
def DiagLinear.inverse {α : Type} [LinearOrderedField α]
    (b : DiagLinear α) (y : List α) : List α :=
  b._bijector.inverse y

/-- `forward_log_det_jacobian` (lines 60-62): delegates. -/
def DiagLinear.forward_log_det_jacobian {α : Type} [LinearOrderedField α]
    (rlog : α → α) (b : DiagLinear α) (x : List α) : α :=
  b._bijector.forward_log_det_jacobian rlog x

/-- `inverse_log_det_jacobian` (lines 64-66): delegates. -/
def DiagLinear.inverse_log_det_jacobian {α : Type} [LinearOrderedField α]
    (rlog : α → α) (b : DiagLinear α) (y : List α) : α :=
  b._bijector.inverse_log_det_jacobian rlog y

/-- `forward_and_log_det` (lines 72-74): delegates. -/
def DiagLinear.forward_and_log_det {α : Type} [LinearOrderedField α]
    (rlog : α → α) (b : DiagLinear α) (x : List α) : List α × α :=
  b._bijector.forward_and_log_det rlog x

/-- `inverse_and_log_det` (lines 68-70): delegates. -/
def DiagLinear.inverse_and_log_det {α : Type} [LinearOrderedField α]
    (rlog : α → α) (b : DiagLinear α) (y : List α) : List α × α :=
  b._bijector.inverse_and_log_det rlog y

/-- The `diag` property (lines 76-79): the stored diagonal, unchanged. -/
def DiagLinear.diag {α : Type} (b : DiagLinear α) : JArray α :=
  b._diag

/-- Broadcasting the log-det-Jacobian over one leading batch axis: the
substrate applies the elementwise operations and the trailing-axis sum
independently per row, so a batch of events maps to one scalar per row. -/
def DiagLinear.forward_log_det_jacobian_batch {α : Type} [LinearOrderedField α]
    (rlog : α → α) (b : DiagLinear α) (x : List (List α)) : List α :=
  x.map (b.forward_log_det_jacobian rlog)

/-- The substrate's `jnp.diag` on a vector: the square matrix carrying the
vector on the main diagonal and zeros elsewhere. -/
def jnpDiag {α : Type} [LinearOrderedField α] (v : List α) : List (List α) :=
  (List.range v.length).map (fun i =>
    (List.range v.length).map (fun j => if i = j then v.getD i 0 else 0))

/-- The `matrix` property (lines 81-86): expand `diag` with a leading axis,
map `jnp.diag` over that axis (`jax.vmap`), and take element 0. -/
def DiagLinear.matrix {α : Type} [LinearOrderedField α]
    (b : DiagLinear α) : List (List α) :=
  let expanded_diag : List (List α) := [b.diag.data]
  let result := expanded_diag.map jnpDiag
  result.getD 0 []

/-- The runtime type of a bijector argument, as far as the
`type(other) is DiagLinear` test in `same_as` can observe it.
`diagLinearSub` stands for an instance of a strict subclass of
`DiagLinear`, whose runtime type is not exactly `DiagLinear`. -/
inductive AbstractBijector (α : Type) where
  | diagLinear (b : DiagLinear α)
  | diagLinearSub (b : DiagLinear α)
  | scalarAffine (sa : ScalarAffine α)
  | blockB (bl : Block α)

/-- `same_as` (lines 88-92): true exactly when `other`'s runtime type is
`DiagLinear` and `self.diag is other.diag` (identity of the underlying
storage, modelled by `ref` equality). -/
def DiagLinear.same_as {α : Type} (self : DiagLinear α) (other : AbstractBijector α) : Bool :=
  match other with
  | AbstractBijector.diagLinear o => self.diag.ref == o.diag.ref
  | _ => false

/-! ## Shared lemmas -/

/-- A successful construction means the dimension check passed and the
result is the record built by the body of `__init__`. -/
lemma init_ok {α : Type} [LinearOrderedField α] {a : JArray α} {b : DiagLinear α}
    (h : DiagLinear.init a = Except.ok b) : a.ndim = 1 ∧ b = dlBody a := by
  unfold DiagLinear.init at h
  by_cases hc : a.ndim = 1
  · refine ⟨hc, ?_⟩
    simp only [hc, ne_eq, not_true_eq_false, if_false, Except.ok.injEq] at h
    exact h.symm
  · simp [hc] at h

/-- The scalar affine transform built by `DiagLinear` (zero shift, the
diagonal as scale) sends `x` to the elementwise product with the diagonal. -/
lemma sa_forward_eq_zipWith {α : Type} [LinearOrderedField α] :
    ∀ (d x : List α), x.length = d.length →
      (ScalarAffine.mk (d.map fun _ => 0) d).forward x
        = List.zipWith (fun di xi => di * xi) d x := by
  intro d
  induction d with
  | nil =>
    intro x hx
    simp [ScalarAffine.forward]
  | cons s ds ih =>
    intro x hx
    cases x with
    | nil => simp at hx
    | cons xi xs =>
      have hx2 : xs.length = ds.length := by simpa using hx
      have tail := ih xs hx2
      simp only [ScalarAffine.forward, List.map_cons, List.zipWith_cons_cons] at tail ⊢
      rw [List.cons.injEq]
      exact ⟨by ring, tail⟩

/-- The scalar affine transform built by `DiagLinear` sends `y` to the
elementwise quotient by the diagonal. -/
lemma sa_inverse_eq_zipWith {α : Type} [LinearOrderedField α] :
    ∀ (d y : List α), y.length = d.length →
      (ScalarAffine.mk (d.map fun _ => 0) d).inverse y
        = List.zipWith (fun yi di => yi / di) y d := by
  intro d
  induction d with
  | nil =>
    intro y hy
    simp [ScalarAffine.inverse]
  | cons s ds ih =>
    intro y hy
    cases y with
    | nil => simp at hy
    | cons yi ys =>
      have hy2 : ys.length = ds.length := by simpa using hy
      have tail := ih ys hy2
      simp only [ScalarAffine.inverse, List.map_cons, List.zipWith_cons_cons] at tail ⊢
      rw [List.cons.injEq]
      exact ⟨by ring, tail⟩

/-- Multiplying elementwise by a nonzero diagonal and then dividing by it
restores the input. -/
lemma zip_div_zip_mul {α : Type} [LinearOrderedField α] :
    ∀ (d x : List α), (∀ t ∈ d, t ≠ 0) → x.length = d.length →
      List.zipWith (fun yi di => yi / di) (List.zipWith (fun di xi => di * xi) d x) d = x := by
  intro d
  induction d with
  | nil =>
    intro x hd hx
    simpa using (List.length_eq_zero.mp hx).symm
  | cons s ds ih =>
    intro x hd hx
    cases x with
    | nil => simp at hx
    | cons xi xs =>
      have hs : s ≠ 0 := hd s (List.mem_cons_self s ds)
      have hx2 : xs.length = ds.length := by simpa using hx
      simp only [List.zipWith_cons_cons]
      rw [List.cons.injEq]
      refine ⟨by field_simp [mul_comm], ?_⟩
      exact ih xs (fun t ht => hd t (List.mem_cons_of_mem _ ht)) hx2

/-- Dividing elementwise by a nonzero diagonal and then multiplying by it
restores the input. -/
lemma zip_mul_zip_div {α : Type} [LinearOrderedField α] :
    ∀ (d y : List α), (∀ t ∈ d, t ≠ 0) → y.length = d.length →
      List.zipWith (fun di xi => di * xi) d (List.zipWith (fun yi di => yi / di) y d) = y := by
  intro d
  induction d with
  | nil =>
    intro y hd hy
    simpa using (List.length_eq_zero.mp hy).symm
  | cons s ds ih =>
    intro y hd hy
    cases y with
    | nil => simp at hy
    | cons yi ys =>
      have hs : s ≠ 0 := hd s (List.mem_cons_self s ds)
      have hy2 : ys.length = ds.length := by simpa using hy
      simp only [List.zipWith_cons_cons]
      rw [List.cons.injEq]
      refine ⟨by field_simp [mul_comm], ?_⟩
      exact ih ys (fun t ht => hd t (List.mem_cons_of_mem _ ht)) hy2

/-- A `zipWith` that ignores its left input is a `map` of the right input,
when the lengths agree. -/
lemma zipWith_const_right {α β γ : Type} (f : α → γ) :
    ∀ (d : List α) (x : List β), x.length = d.length →
      List.zipWith (fun _ si => f si) x d = d.map f := by
  intro d
  induction d with
  | nil =>
    intro x hx
    simp
  | cons s ds ih =>
    intro x hx
    cases x with
    | nil => simp at hx
    | cons xi xs =>
      have hx2 : xs.length = ds.length := by simpa using hx
      simp only [List.zipWith_cons_cons, List.map_cons]
      rw [List.cons.injEq]
      exact ⟨rfl, ih xs hx2⟩

/-- The length of the elementwise product computed by `forward`. -/
lemma dl_forward_length {α : Type} [LinearOrderedField α] (a : JArray α) (x : List α)
    (hx : x.length = a.data.length) : ((dlBody a).forward x).length = a.data.length := by
  simp [DiagLinear.forward, Block.forward, dlBody, ScalarAffine.forward, hx]

/-- The length of the elementwise quotient computed by `inverse`. -/
lemma dl_inverse_length {α : Type} [LinearOrderedField α] (a : JArray α) (y : List α)
    (hy : y.length = a.data.length) : ((dlBody a).inverse y).length = a.data.length := by
  simp [DiagLinear.inverse, Block.inverse, dlBody, ScalarAffine.inverse, hy]

/-- The `forward` of a constructed object, at the list level. -/
lemma dl_forward_eq {α : Type} [LinearOrderedField α] (a : JArray α) (x : List α)
    (hx : x.length = a.data.length) :
    (dlBody a).forward x = List.zipWith (fun di xi => di * xi) a.data x := by
  simpa [DiagLinear.forward, Block.forward, dlBody] using
    sa_forward_eq_zipWith a.data x hx

/-- The `inverse` of a constructed object, at the list level. -/
lemma dl_inverse_eq {α : Type} [LinearOrderedField α] (a : JArray α) (y : List α)
    (hy : y.length = a.data.length) :
    (dlBody a).inverse y = List.zipWith (fun yi di => yi / di) y a.data := by
  simpa [DiagLinear.inverse, Block.inverse, dlBody] using
    sa_inverse_eq_zipWith a.data y hy

/-- The `forward_log_det_jacobian` of a constructed object, at the list
level: the sum of the logs of the absolute diagonal entries. -/
lemma dl_fldj_eq {α : Type} [LinearOrderedField α] (rlog : α → α) (a : JArray α)
    (x : List α) (hx : x.length = a.data.length) :
    (dlBody a).forward_log_det_jacobian rlog x = (a.data.map (fun t => rlog |t|)).sum := by
  simp only [DiagLinear.forward_log_det_jacobian, Block.forward_log_det_jacobian,
    dlBody, ScalarAffine.forward_log_det_jacobian]
  rw [zipWith_const_right (fun t => rlog |t|) a.data x hx]

/-! ## Claims -/

/-- C2: for every 1-D `diag` and every `x` whose last axis has length
`len(diag)`, `forward(x)` is the elementwise product `diag * x` and
`inverse(y)` is the elementwise quotient `y / diag`. -/
theorem diagLinear_forward_inverse_elementwise {α : Type} [LinearOrderedField α]
    (a : JArray α) (b : DiagLinear α) (h : DiagLinear.init a = Except.ok b)
    (x y : List α) (hx : x.length = a.data.length) (hy : y.length = a.data.length) :
    b.forward x = List.zipWith (fun di xi => di * xi) a.data x
      ∧ b.inverse y = List.zipWith (fun yi di => yi / di) y a.data := by
  obtain ⟨-, rfl⟩ := init_ok h
  exact ⟨dl_forward_eq a x hx, dl_inverse_eq a y hy⟩

/-- C1: for every 1-D `diag` with all entries nonzero and inputs of the
matching trailing length, `inverse (forward x) = x` and
`forward (inverse y) = y` (exactly, in the exact-arithmetic model). -/
theorem diagLinear_roundtrip {α : Type} [LinearOrderedField α]
    (a : JArray α) (b : DiagLinear α) (h : DiagLinear.init a = Except.ok b)
    (hd : ∀ t ∈ a.data, t ≠ 0)
    (x y : List α) (hx : x.length = a.data.length) (hy : y.length = a.data.length) :
    b.inverse (b.forward x) = x ∧ b.forward (b.inverse y) = y := by
  obtain ⟨-, rfl⟩ := init_ok h
  constructor
  · have hlen : ((dlBody a).forward x).length = a.data.length := dl_forward_length a x hx
    rw [dl_inverse_eq a _ hlen, dl_forward_eq a x hx]
    exact zip_div_zip_mul a.data x hd hx
  · have hlen : ((dlBody a).inverse y).length = a.data.length := dl_inverse_length a y hy
    rw [dl_forward_eq a _ hlen, dl_inverse_eq a y hy]
    exact zip_mul_zip_div a.data y hd hy

/-- C3: `forward_log_det_jacobian(x) = sum(log(|diag|))` for every `x` of
matching trailing shape, one scalar per batch element, with a value that
does not depend on the value of `x` (only the constant `diag` appears on
the right-hand side). -/
theorem diagLinear_forward_log_det_jacobian_const {α : Type} [LinearOrderedField α]
    (rlog : α → α) (a : JArray α) (b : DiagLinear α) (h : DiagLinear.init a = Except.ok b)
    (hd : ∀ t ∈ a.data, t ≠ 0) (x : List (List α))
    (hx : ∀ r ∈ x, r.length = a.data.length) :
    b.forward_log_det_jacobian_batch rlog x
        = x.map (fun _ => (a.data.map (fun t => rlog |t|)).sum)
      ∧ ∀ x0 : List α, x0.length = a.data.length →
          b.forward_log_det_jacobian rlog x0 = (a.data.map (fun t => rlog |t|)).sum := by
  obtain ⟨-, rfl⟩ := init_ok h
  refine ⟨?_, fun x0 hx0 => dl_fldj_eq rlog a x0 hx0⟩
  unfold DiagLinear.forward_log_det_jacobian_batch
  exact List.map_congr_left (fun r hr => dl_fldj_eq rlog a r (hx r hr))

/-- C4: `inverse_log_det_jacobian(y) = -sum(log(|diag|))`, the negation of
`forward_log_det_jacobian` evaluated at any input of matching shape. -/
theorem diagLinear_inverse_log_det_jacobian_neg {α : Type} [LinearOrderedField α]
    (rlog : α → α) (a : JArray α) (b : DiagLinear α) (h : DiagLinear.init a = Except.ok b)
    (hd : ∀ t ∈ a.data, t ≠ 0) (y : List α) (hy : y.length = a.data.length) :
    b.inverse_log_det_jacobian rlog y = -((a.data.map (fun t => rlog |t|)).sum)
      ∧ ∀ x : List α, x.length = a.data.length →
          b.inverse_log_det_jacobian rlog y = -(b.forward_log_det_jacobian rlog x) := by
  obtain ⟨-, rfl⟩ := init_ok h
  have hneg : (dlBody a).inverse_log_det_jacobian rlog y
      = -((a.data.map (fun t => rlog |t|)).sum) := by
    simp only [DiagLinear.inverse_log_det_jacobian, Block.inverse_log_det_jacobian,
      dlBody, ScalarAffine.inverse_log_det_jacobian]
    rw [zipWith_const_right (fun t => -rlog |t|) a.data y hy]
    induction a.data with
    | nil => simp
    | cons s ds ih => simp [ih]; ring
  refine ⟨hneg, fun x hx => ?_⟩
  rw [hneg, dl_fldj_eq rlog a x hx]

/-- C5: the fused variants return exactly the pair of the two individual
calls, with identical values. -/
theorem diagLinear_fused_consistency {α : Type} [LinearOrderedField α]
    (rlog : α → α) (a : JArray α) (b : DiagLinear α) (h : DiagLinear.init a = Except.ok b)
    (x y : List α) :
    b.forward_and_log_det rlog x = (b.forward x, b.forward_log_det_jacobian rlog x)
      ∧ b.inverse_and_log_det rlog y = (b.inverse y, b.inverse_log_det_jacobian rlog y) := by
  obtain ⟨-, rfl⟩ := init_ok h
  exact ⟨rfl, rfl⟩

/-- C6: constructing with a `diag` that is not exactly 1-dimensional fails
immediately with the descriptive `ValueError` message and no object is
returned; constructing with any 1-dimensional `diag` succeeds (in
particular for every positive length). -/
theorem diagLinear_init_validation {α : Type} [LinearOrderedField α] (a : JArray α) :
    (a.ndim ≠ 1 → DiagLinear.init a = Except.error "`diag` must have one dimension.")
      ∧ (a.ndim = 1 → DiagLinear.init a = Except.ok (dlBody a)) := by
  constructor
  · intro hne
    simp [DiagLinear.init, hne]
  · intro he
    simp [DiagLinear.init, he]

/-- Witness for C6: a 2-D `diag` is rejected with the message, a 1-D
`diag` of length 3 is accepted. -/
theorem diagLinear_init_validation_witness :
    DiagLinear.init (JArray.mk 0 [2, 2] [1, 0, 0, (1 : ℚ)])
        = Except.error "`diag` must have one dimension."
      ∧ DiagLinear.init (JArray.mk 0 [3] [2, -3, (1 : ℚ) / 2])
        = Except.ok (dlBody (JArray.mk 0 [3] [2, -3, (1 : ℚ) / 2])) :=
  ⟨(diagLinear_init_validation (JArray.mk 0 [2, 2] [1, 0, 0, (1 : ℚ)])).1 (by decide),
   (diagLinear_init_validation (JArray.mk 0 [3] [2, -3, (1 : ℚ) / 2])).2 rfl⟩

/-- C7: `same_as` is true exactly when the other bijector's runtime type is
`DiagLinear` and its `diag` is the identical underlying storage; hence it is
true on a transform compared with itself, false for two transforms built
from separately allocated (distinct-ref) but value-equal diagonals, and
false for bijectors of a different variant. -/
theorem diagLinear_same_as_characterization {α : Type} [LinearOrderedField α] :
    (∀ (b : DiagLinear α) (other : AbstractBijector α),
        b.same_as other = true ↔
          ∃ o : DiagLinear α, other = AbstractBijector.diagLinear o ∧ b.diag.ref = o.diag.ref)
      ∧ (∀ b : DiagLinear α, b.same_as (AbstractBijector.diagLinear b) = true)
      ∧ (∀ (a₁ a₂ : JArray α) (b₁ b₂ : DiagLinear α),
          DiagLinear.init a₁ = Except.ok b₁ → DiagLinear.init a₂ = Except.ok b₂ →
          a₁.data = a₂.data → a₁.ref ≠ a₂.ref →
          b₁.same_as (AbstractBijector.diagLinear b₂) = false)
      ∧ (∀ (b : DiagLinear α) (sa : ScalarAffine α),
          b.same_as (AbstractBijector.scalarAffine sa) = false)
      ∧ (∀ (b : DiagLinear α) (bl : Block α),
          b.same_as (AbstractBijector.blockB bl) = false) := by
  refine ⟨?_, ?_, ?_, ?_, ?_⟩
  · intro b other
    cases other with
    | diagLinear o =>
      constructor
      · intro hb
        exact ⟨o, rfl, by simpa [DiagLinear.same_as] using hb⟩
      · rintro ⟨o', ho, hr⟩
        obtain rfl : o = o' := AbstractBijector.diagLinear.inj ho
        simp [DiagLinear.same_as, hr]
    | diagLinearSub o =>
      simp [DiagLinear.same_as]
    | scalarAffine sa =>
      simp [DiagLinear.same_as]
    | blockB bl =>
      simp [DiagLinear.same_as]
  · intro b
    simp [DiagLinear.same_as]
  · intro a₁ a₂ b₁ b₂ h₁ h₂ hdata href
    obtain ⟨-, rfl⟩ := init_ok h₁
    obtain ⟨-, rfl⟩ := init_ok h₂
    simpa [DiagLinear.same_as, dlBody, DiagLinear.diag] using href
  · intro b sa
    rfl
  · intro b bl
    rfl

/-- Witness for C7: two transforms over value-equal diagonals allocated
under distinct refs are not `same_as`; a transform is `same_as` itself. -/
theorem diagLinear_same_as_characterization_witness :
    (dlBody (JArray.mk 0 [2] [5, (7 : ℚ)])).same_as
        (AbstractBijector.diagLinear (dlBody (JArray.mk 1 [2] [5, (7 : ℚ)]))) = false
      ∧ (dlBody (JArray.mk 0 [2] [5, (7 : ℚ)])).same_as
        (AbstractBijector.diagLinear (dlBody (JArray.mk 0 [2] [5, (7 : ℚ)]))) = true :=
  ⟨diagLinear_same_as_characterization.2.2.1
      (JArray.mk 0 [2] [5, (7 : ℚ)]) (JArray.mk 1 [2] [5, (7 : ℚ)])
      (dlBody (JArray.mk 0 [2] [5, (7 : ℚ)])) (dlBody (JArray.mk 1 [2] [5, (7 : ℚ)]))
      rfl rfl rfl (by decide),
   diagLinear_same_as_characterization.2.1 (dlBody (JArray.mk 0 [2] [5, (7 : ℚ)]))⟩

/-- C8: `matrix` is a `D×D` array equal to `diag[i]` at `(i, i)` and zero
off the diagonal. -/
theorem diagLinear_matrix_entries {α : Type} [LinearOrderedField α]
    (a : JArray α) (b : DiagLinear α) (h : DiagLinear.init a = Except.ok b) :
    b.matrix.length = a.data.length
      ∧ (∀ i, i < a.data.length → (b.matrix.getD i []).length = a.data.length)
      ∧ ∀ i j, i < a.data.length → j < a.data.length →
          (b.matrix.getD i []).getD j 0 = if i = j then a.data.getD i 0 else 0 := by
  obtain ⟨-, rfl⟩ := init_ok h
  have hm : (dlBody a).matrix = jnpDiag a.data := rfl
  have hrow : ∀ i, i < a.data.length → (jnpDiag a.data).getD i []
      = (List.range a.data.length).map (fun j => if i = j then a.data.getD i 0 else 0) := by
    intro i hi
    have hlen : i < (jnpDiag a.data).length := by simpa [jnpDiag] using hi
    rw [List.getD_eq_getElem _ _ hlen]
    simp [jnpDiag]
  refine ⟨?_, ?_, ?_⟩
  · rw [hm]
    simp [jnpDiag]
  · intro i hi
    rw [hm, hrow i hi]
    simp
  · intro i j hi hj
    rw [hm, hrow i hi]
    have hj2 : j < ((List.range a.data.length).map
        (fun j => if i = j then a.data.getD i 0 else 0)).length := by simpa using hj
    rw [List.getD_eq_getElem _ _ hj2]
    simp

/-- Witness for C8: for `diag = [3, 4]` the materialized matrix has `3` at
`(0, 0)` and `0` at `(0, 1)`. -/
theorem diagLinear_matrix_entries_witness :
    ((dlBody (JArray.mk 0 [2] [3, (4 : ℚ)])).matrix.getD 0 []).getD 0 0 = 3
      ∧ ((dlBody (JArray.mk 0 [2] [3, (4 : ℚ)])).matrix.getD 0 []).getD 1 0 = 0 := by
  have h := (diagLinear_matrix_entries (JArray.mk 0 [2] [3, (4 : ℚ)])
    (dlBody (JArray.mk 0 [2] [3, (4 : ℚ)])) rfl).2.2
  exact ⟨by simpa using h 0 0 (by decide) (by decide),
         by simpa using h 0 1 (by decide) (by decide)⟩

/-- C9: every successfully constructed object has both
`_is_constant_jacobian` and `_is_constant_log_det` set to true; the
embedding's operations are pure functions that never rebuild the object,
so the flags hold unchanged over the object's lifetime. -/
theorem diagLinear_constant_flags {α : Type} [LinearOrderedField α]
    (a : JArray α) (b : DiagLinear α) (h : DiagLinear.init a = Except.ok b) :
    b._is_constant_jacobian = true ∧ b._is_constant_log_det = true := by
  obtain ⟨-, rfl⟩ := init_ok h
  exact ⟨rfl, rfl⟩

/-- Witness for C9: both flags are set on a concretely constructed object. -/
theorem diagLinear_constant_flags_witness :
    (dlBody (JArray.mk 0 [1] [(2 : ℚ)]))._is_constant_jacobian = true
      ∧ (dlBody (JArray.mk 0 [1] [(2 : ℚ)]))._is_constant_log_det = true :=
  diagLinear_constant_flags (JArray.mk 0 [1] [(2 : ℚ)])
    (dlBody (JArray.mk 0 [1] [(2 : ℚ)])) rfl

/-- C10: `same_as` is false whenever the runtime type of `other` is not
exactly `DiagLinear`; in particular it is false on an instance of a strict
subclass even when that instance carries the identical `diag` storage. -/
theorem diagLinear_same_as_requires_exact_type {α : Type} :
    (∀ (b : DiagLinear α) (other : AbstractBijector α),
        (∀ o : DiagLinear α, other ≠ AbstractBijector.diagLinear o) →
        b.same_as other = false)
      ∧ ∀ b : DiagLinear α, b.same_as (AbstractBijector.diagLinearSub b) = false := by
  constructor
  · intro b other hother
    cases other with
    | diagLinear o => exact absurd rfl (hother o)
    | diagLinearSub o => rfl
    | scalarAffine sa => rfl
    | blockB bl => rfl
  · intro b
    rfl

/-- Witness for C10: a subclass instance sharing the very same `diag`
storage is still rejected. -/
theorem diagLinear_same_as_requires_exact_type_witness :
    (dlBody (JArray.mk 0 [1] [(2 : ℚ)])).same_as
        (AbstractBijector.diagLinearSub (dlBody (JArray.mk 0 [1] [(2 : ℚ)]))) = false :=
  diagLinear_same_as_requires_exact_type.1
    (dlBody (JArray.mk 0 [1] [(2 : ℚ)]))
    (AbstractBijector.diagLinearSub (dlBody (JArray.mk 0 [1] [(2 : ℚ)])))
    (fun o => by simp)

/-- Witness for C1: the spec's end-to-end diagonal, with exact arithmetic,
on concrete inputs. -/
theorem diagLinear_roundtrip_witness :
    (∀ t ∈ [2, -3, (5 : ℚ)], t ≠ 0)
      ∧ (dlBody (JArray.mk 0 [3] [2, -3, (5 : ℚ)])).inverse
          ((dlBody (JArray.mk 0 [3] [2, -3, (5 : ℚ)])).forward [1, 1, 1]) = [1, 1, 1]
      ∧ (dlBody (JArray.mk 0 [3] [2, -3, (5 : ℚ)])).forward
          ((dlBody (JArray.mk 0 [3] [2, -3, (5 : ℚ)])).inverse [4, 6, 10]) = [4, 6, 10] := by
  have h := diagLinear_roundtrip (JArray.mk 0 [3] [2, -3, (5 : ℚ)])
    (dlBody (JArray.mk 0 [3] [2, -3, (5 : ℚ)])) rfl (by decide) [1, 1, 1] [4, 6, 10] rfl rfl
  exact ⟨by decide, h.1, h.2⟩

/-- Witness for C2: `forward` multiplies and `inverse` divides elementwise
on concrete inputs. -/
theorem diagLinear_forward_inverse_elementwise_witness :
    (dlBody (JArray.mk 0 [3] [2, -3, (5 : ℚ)])).forward [1, 2, 3]
        = List.zipWith (fun di xi => di * xi) [2, -3, (5 : ℚ)] [1, 2, 3]
      ∧ (dlBody (JArray.mk 0 [3] [2, -3, (5 : ℚ)])).inverse [4, 6, 10]
        = List.zipWith (fun yi di => yi / di) [4, 6, 10] [2, -3, (5 : ℚ)] :=
  diagLinear_forward_inverse_elementwise (JArray.mk 0 [3] [2, -3, (5 : ℚ)])
    (dlBody (JArray.mk 0 [3] [2, -3, (5 : ℚ)])) rfl [1, 2, 3] [4, 6, 10] rfl rfl

/-- Witness for C3: one scalar per batch row, each equal to the sum of the
logs of the absolute diagonal entries, and the same for a single event. -/
theorem diagLinear_forward_log_det_jacobian_const_witness :
    (∀ t ∈ [2, -3, (5 : ℚ)], t ≠ 0)
      ∧ (dlBody (JArray.mk 0 [3] [2, -3, (5 : ℚ)])).forward_log_det_jacobian_batch
          (fun t => t) [[1, 1, 1], [2, 3, 4]]
          = [[1, 1, 1], [2, 3, (4 : ℚ)]].map
              (fun _ => ([2, -3, (5 : ℚ)].map (fun t => (fun t => t) |t|)).sum)
      ∧ (dlBody (JArray.mk 0 [3] [2, -3, (5 : ℚ)])).forward_log_det_jacobian
          (fun t => t) [7, 8, 9]
          = ([2, -3, (5 : ℚ)].map (fun t => (fun t => t) |t|)).sum := by
  have h := diagLinear_forward_log_det_jacobian_const (fun t => t)
    (JArray.mk 0 [3] [2, -3, (5 : ℚ)]) (dlBody (JArray.mk 0 [3] [2, -3, (5 : ℚ)])) rfl
    (by decide) [[1, 1, 1], [2, 3, 4]] (by decide)
  exact ⟨by decide, h.1, h.2 [7, 8, 9] rfl⟩

/-- Witness for C4: the inverse log-det-Jacobian is the negated sum and the
negation of the forward log-det-Jacobian at an unrelated input. -/
theorem diagLinear_inverse_log_det_jacobian_neg_witness :
    (∀ t ∈ [2, -3, (5 : ℚ)], t ≠ 0)
      ∧ (dlBody (JArray.mk 0 [3] [2, -3, (5 : ℚ)])).inverse_log_det_jacobian
          (fun t => t) [4, 6, 10]
          = -(([2, -3, (5 : ℚ)].map (fun t => (fun t => t) |t|)).sum)
      ∧ (dlBody (JArray.mk 0 [3] [2, -3, (5 : ℚ)])).inverse_log_det_jacobian
          (fun t => t) [4, 6, 10]
          = -((dlBody (JArray.mk 0 [3] [2, -3, (5 : ℚ)])).forward_log_det_jacobian
              (fun t => t) [7, 8, 9]) := by
  have h := diagLinear_inverse_log_det_jacobian_neg (fun t => t)
    (JArray.mk 0 [3] [2, -3, (5 : ℚ)]) (dlBody (JArray.mk 0 [3] [2, -3, (5 : ℚ)])) rfl
    (by decide) [4, 6, 10] rfl
  exact ⟨by decide, h.1, h.2 [7, 8, 9] rfl⟩

/-- Witness for C5: the fused calls return exactly the pairs of the two
individual calls on concrete inputs. -/
theorem diagLinear_fused_consistency_witness :
    (dlBody (JArray.mk 0 [3] [2, -3, (5 : ℚ)])).forward_and_log_det (fun t => t) [1, 2, 3]
        = ((dlBody (JArray.mk 0 [3] [2, -3, (5 : ℚ)])).forward [1, 2, 3],
           (dlBody (JArray.mk 0 [3] [2, -3, (5 : ℚ)])).forward_log_det_jacobian
             (fun t => t) [1, 2, 3])
      ∧ (dlBody (JArray.mk 0 [3] [2, -3, (5 : ℚ)])).inverse_and_log_det (fun t => t) [4, 6, 10]
        = ((dlBody (JArray.mk 0 [3] [2, -3, (5 : ℚ)])).inverse [4, 6, 10],
           (dlBody (JArray.mk 0 [3] [2, -3, (5 : ℚ)])).inverse_log_det_jacobian
             (fun t => t) [4, 6, 10]) :=
  diagLinear_fused_consistency (fun t => t) (JArray.mk 0 [3] [2, -3, (5 : ℚ)])
    (dlBody (JArray.mk 0 [3] [2, -3, (5 : ℚ)])) rfl [1, 2, 3] [4, 6, 10]
